import Mathlib

/-!
Verification of the websocket audio relay (src/audio_handler.py).

The development shallowly embeds the per-connection relay engine:
the silence classifier over raw PCM byte chunks, the silence-gated
relay state machine, the session message loop that buffers every
binary frame, and the teardown that writes the buffered audio to a
WAV container.  Bytes are modelled as natural numbers below 256,
durations as rational numbers, fallible file writing as a function
into `Except`.
-/

namespace AudioHandler

/-! ### Fixed audio configuration (module-level constants) -/

def SAMPLE_RATE : Nat := 16000
def CHANNELS : Nat := 1
def SAMPLE_WIDTH : Nat := 2
def BYTES_PER_SAMPLE : Nat := CHANNELS * SAMPLE_WIDTH
def BYTES_PER_SECOND : Nat := SAMPLE_RATE * BYTES_PER_SAMPLE
def SILENCE_THRESHOLD : Nat := 800
def MAX_SILENCE_SECONDS : ℚ := 1

/-! ### Silence classifier (`is_chunk_silent_max_abs`) -/

/-- `struct.unpack('<h', bytes([b0, b1]))[0]`: a signed little-endian
16-bit sample from two bytes. -/
def decodeSample (b0 b1 : Nat) : Int :=
  let u : Nat := b0 + 256 * b1
  if u < 32768 then (u : Int) else (u : Int) - 65536

/-- Decode a byte chunk into its complete 16-bit samples, dropping an
incomplete trailing byte (the source iterates `i` over
`range(len(chunk) // SAMPLE_WIDTH)`). -/
def chunkSamples : List Nat → List Int
  | b0 :: b1 :: rest => decodeSample b0 b1 :: chunkSamples rest
  | _ => []

/-- The running `max_amplitude` computed by the classifier loop:
maximum of `abs(sample_val)` over the complete samples, starting at 0. -/
def maxAbsAmplitude : List Nat → Nat
  | b0 :: b1 :: rest => Nat.max (decodeSample b0 b1).natAbs (maxAbsAmplitude rest)
  | _ => 0

/-- `is_chunk_silent_max_abs(pcm_chunk_bytes, threshold)`: empty chunks
are silent, otherwise silent iff `max_amplitude < threshold`. -/
def is_chunk_silent_max_abs (chunk : List Nat) (threshold : Nat) : Bool :=
  if chunk = [] then true
  else decide (maxAbsAmplitude chunk < threshold)

/-! ### Relay gate -/

/-- Per-connection relay state: `relaying_audio` and
`current_silence_accumulated_duration`. -/
structure GateState where
  relaying : Bool
  acc : ℚ
deriving DecidableEq

/-- `relaying_audio = True`, accumulator `0.0` at connection start. -/
def initGate : GateState := ⟨true, 0⟩

/-- `chunk_duration_seconds = len(message) / BYTES_PER_SECOND`. -/
def chunkDuration (chunk : List Nat) : ℚ :=
  (chunk.length : ℚ) / (BYTES_PER_SECOND : ℚ)

/-- One pass of the silence-detection block: on a silent chunk the
duration is accumulated and, once the accumulator reaches
`MAX_SILENCE_SECONDS`, relaying stops; on a non-silent chunk relaying
resumes and the accumulator resets to 0. -/
def stepGate (s : GateState) (isSilent : Bool) (dur : ℚ) : GateState :=
  if isSilent then
    if MAX_SILENCE_SECONDS ≤ s.acc + dur then ⟨false, s.acc + dur⟩
    else ⟨s.relaying, s.acc + dur⟩
  else ⟨true, 0⟩

/-- Process one binary chunk: classify, update the gate, and report the
relay decision, which the source takes from the post-update
`relaying_audio` flag. -/
def processChunk (s : GateState) (chunk : List Nat) : GateState × Bool :=
  let s' := stepGate s (is_chunk_silent_max_abs chunk SILENCE_THRESHOLD)
    (chunkDuration chunk)
  (s', s'.relaying)

/-- Process a list of binary chunks in arrival order, collecting the
relayed chunks in send order. -/
def processChunks : GateState → List (List Nat) → GateState × List (List Nat)
  | s, [] => (s, [])
  | s, c :: cs =>
    let s' := (processChunk s c).1
    let rest := processChunks s' cs
    (rest.1, if (processChunk s c).2 then c :: rest.2 else rest.2)

/-- The gate state after each chunk, in arrival order. -/
def gateStatesAfter : GateState → List (List Nat) → List GateState
  | _, [] => []
  | s, c :: cs => (processChunk s c).1 :: gateStatesAfter (processChunk s c).1 cs

/-- The relay decision for each chunk, in arrival order. -/
def relayFlags (s : GateState) (cs : List (List Nat)) : List Bool :=
  (gateStatesAfter s cs).map GateState.relaying

/-! ### Session message loop and teardown -/

/-- An inbound websocket message: binary PCM payload or text. -/
inductive WsMessage
  | binary (payload : List Nat)
  | text (s : String)

/-- Per-session state of the handler loop: `pcm_data_chunks`, the gate
variables, and the chunks sent back so far. -/
structure SessionState where
  pcmChunks : List (List Nat)
  gate : GateState
  relayed : List (List Nat)

def initSession : SessionState := ⟨[], initGate, []⟩

/-- The body of `async for message in websocket`: a binary frame is
always appended to `pcm_data_chunks`, then classified, gated and
possibly sent back; a text frame is only logged. -/
def handleMessage (st : SessionState) (m : WsMessage) : SessionState :=
  match m with
  | .binary payload =>
    { pcmChunks := st.pcmChunks ++ [payload]
      gate := (processChunk st.gate payload).1
      relayed :=
        if (processChunk st.gate payload).2 then st.relayed ++ [payload]
        else st.relayed }
  | .text _ => st

/-- Run the receive loop over a finite message sequence. -/
def runHandler (msgs : List WsMessage) : SessionState :=
  msgs.foldl handleMessage initSession

/-- The binary payloads of a message sequence, in receipt order. -/
def binaryPayloads (msgs : List WsMessage) : List (List Nat) :=
  msgs.filterMap (fun m => match m with | .binary p => some p | .text _ => none)

/-- The parameters handed to the `wave` writer: channel count, sample
width, frame rate and the concatenated frames. -/
structure WavFile where
  nchannels : Nat
  sampwidth : Nat
  framerate : Nat
  frames : List Nat
deriving DecidableEq

/-- The teardown write: nothing when `pcm_data_chunks` is empty,
otherwise a WAV file stamped with the fixed format holding
`b''.join(pcm_data_chunks)`. -/
def teardownWrite (st : SessionState) : Option WavFile :=
  if st.pcmChunks.isEmpty then none
  else some ⟨CHANNELS, SAMPLE_WIDTH, SAMPLE_RATE, st.pcmChunks.flatten⟩

/-- The `finally` block around the write: the attempt result (success
or error) is captured and logged, never re-raised, so teardown always
produces an outcome. -/
def teardown (st : SessionState) (tryWrite : WavFile → Except String Unit) :
    Option (Except String Unit) :=
  match teardownWrite st with
  | none => none
  | some wav => some (tryWrite wav)

/-! ### Output filename -/

/-- A wall-clock instant at the microsecond granularity of
`datetime.datetime.now()`. -/
structure Timestamp where
  year : Nat
  month : Nat
  day : Nat
  hour : Nat
  minute : Nat
  second : Nat
  microsecond : Nat
deriving DecidableEq

/-- Little-endian digits of `n`, zero-padded (or truncated) to width
`w`; for `n < 10 ^ w` this is exactly the zero-padded decimal form. -/
def padRev : Nat → Nat → List Nat
  | 0, _ => []
  | w + 1, n => n % 10 :: padRev w (n / 10)

/-- Zero-padded decimal rendering of a field, most significant digit
first, as characters. -/
def padDigits (w n : Nat) : List Char :=
  ((padRev w n).reverse).map Nat.digitChar

/-- `strftime("%Y%m%d_%H%M%S_%f")`. -/
def strfTimestamp (t : Timestamp) : List Char :=
  padDigits 4 t.year ++ padDigits 2 t.month ++ padDigits 2 t.day ++
    [Char.ofNat 95] ++
    padDigits 2 t.hour ++ padDigits 2 t.minute ++ padDigits 2 t.second ++
    [Char.ofNat 95] ++
    padDigits 6 t.microsecond

/-- `str(client_address)` sanitized: colons to underscores, parentheses
and commas removed. -/
def saneClientAddress (addr : String) : String :=
  (((addr.replace ":" "_").replace "(" "").replace ")" "").replace "," ""

/-- `os.path.join(OUTPUT_DIR, f"audio_.._...wav")`. -/
def outputFilename (addr : String) (t : Timestamp) : String :=
  String.mk (("received_audio/audio_" ++ saneClientAddress addr ++ "_").data
    ++ strfTimestamp t ++ ".wav".data)

/-! ### Concrete chunks used in scenarios -/

/-- `k` consecutive samples, each with byte pair `(b0, b1)`. -/
def repChunk : Nat → Nat → Nat → List Nat
  | 0, _, _ => []
  | k + 1, b0, b1 => b0 :: b1 :: repChunk k b0 b1

/-- A 0.5 s chunk (16000 bytes) whose samples all decode to 50. -/
def chunkAmp50 : List Nat := repChunk 8000 50 0

/-- A two-byte chunk holding the single sample 2000. -/
def chunkAmp2000 : List Nat := [208, 7]

/-- A 1.0 s chunk (32000 bytes) of all-zero samples. -/
def silentOneSecond : List Nat := repChunk 16000 0 0

/-- Total playback duration of a chunk list. -/
def durSum (cs : List (List Nat)) : ℚ := (cs.map chunkDuration).sum

/-- The maximal run of consecutive silent-classified chunks at the end
of a chunk list. -/
def trailingSilentChunks (cs : List (List Nat)) : List (List Nat) :=
  cs.reverse.takeWhile (fun c => is_chunk_silent_max_abs c SILENCE_THRESHOLD)

/-! ### Classifier lemmas -/

theorem natAbs_le_maxAbsAmplitude {c : List Nat} {v : Int}
    (hv : v ∈ chunkSamples c) : v.natAbs ≤ maxAbsAmplitude c := by
  induction c using chunkSamples.induct with
  | case1 b0 b1 rest ih =>
    simp only [chunkSamples, List.mem_cons] at hv
    rcases hv with rfl | hv
    · exact le_max_left _ _
    · exact le_trans (ih hv) (le_max_right _ _)
  | case2 c h =>
    cases c with
    | nil => simp [chunkSamples] at hv
    | cons b rest =>
      cases rest with
      | nil => simp [chunkSamples] at hv
      | cons b1 r => exact absurd rfl (h b b1 r)

theorem maxAbsAmplitude_take_whole (c : List Nat) :
    maxAbsAmplitude (c.take (2 * (c.length / 2))) = maxAbsAmplitude c := by
  induction c using maxAbsAmplitude.induct with
  | case1 b0 b1 rest ih =>
    have hlen : (b0 :: b1 :: rest).length = rest.length + 2 := by simp
    have hdiv : (rest.length + 2) / 2 = rest.length / 2 + 1 :=
      Nat.add_div_right _ (by norm_num)
    have htake : (b0 :: b1 :: rest).take (2 * ((b0 :: b1 :: rest).length / 2)) =
        b0 :: b1 :: rest.take (2 * (rest.length / 2)) := by
      rw [hlen, hdiv, Nat.mul_add, Nat.mul_one]
      rfl
    rw [htake]
    simp only [maxAbsAmplitude, ih]
  | case2 c h =>
    cases c with
    | nil => rfl
    | cons b rest =>
      cases rest with
      | nil =>
        have h0 : 2 * (([b] : List Nat).length / 2) = 0 := by norm_num
        rw [h0, List.take_zero]
        rfl
      | cons b1 r => exact absurd rfl (h b b1 r)

/-! ### Claim C4 -/

/-- C4 counterexample: at threshold 0 a one-byte chunk decodes to zero
complete samples, which the claim calls silent, yet the classifier
returns not-silent because its running maximum 0 is not strictly below
the threshold 0. -/
theorem claim4_counterexample :
    ¬ (is_chunk_silent_max_abs [0] 0 = true ↔
        ([0].length / SAMPLE_WIDTH = 0 ∨ maxAbsAmplitude [0] < 0)) := by
  decide

/-- C4 amended: the classifier returns silent iff the chunk is empty or
the maximum absolute sample value (0 when no complete sample exists) is
strictly below the threshold; an empty chunk is silent, and a chunk
holding a sample whose magnitude equals the threshold is not silent. -/
theorem claim4_silent_iff (chunk : List Nat) (threshold : Nat) :
    (is_chunk_silent_max_abs chunk threshold = true ↔
      (chunk = [] ∨ maxAbsAmplitude chunk < threshold))
    ∧ is_chunk_silent_max_abs [] threshold = true
    ∧ (∀ v ∈ chunkSamples chunk, v.natAbs = threshold →
        is_chunk_silent_max_abs chunk threshold = false) := by
  refine ⟨?_, rfl, ?_⟩
  · unfold is_chunk_silent_max_abs
    by_cases h : chunk = [] <;> simp [h]
  · intro v hv hvt
    have hne : chunk ≠ [] := by
      intro h
      rw [h] at hv
      simp [chunkSamples] at hv
    have hle : v.natAbs ≤ maxAbsAmplitude chunk := natAbs_le_maxAbsAmplitude hv
    unfold is_chunk_silent_max_abs
    rw [if_neg hne]
    simp only [decide_eq_false_iff_not, not_lt]
    omega

/-- C4 witness at a concrete chunk holding the sample 1000 with
threshold 1000. -/
theorem claim4_witness :
    (1000 : Int) ∈ chunkSamples [232, 3] ∧
      is_chunk_silent_max_abs [232, 3] 1000 = false :=
  ⟨by decide, (claim4_silent_iff [232, 3] 1000).2.2 1000 (by decide) (by decide)⟩

/-! ### Claim C9 -/

/-- C9 counterexample: at threshold 0 the one-byte chunk classifies
not-silent while its (empty) whole-sample truncation classifies
silent. -/
theorem claim9_counterexample :
    is_chunk_silent_max_abs [0] 0 ≠
      is_chunk_silent_max_abs
        (([0]).take (SAMPLE_WIDTH * ([0].length / SAMPLE_WIDTH))) 0 := by
  decide

/-- C9 amended: for every positive threshold, a chunk whose byte length
is not a multiple of the sample width classifies exactly like its
largest whole-sample truncation; the incomplete tail byte is ignored
and causes no failure. -/
theorem claim9_truncation (chunk : List Nat) (threshold : Nat)
    (hodd : chunk.length % SAMPLE_WIDTH ≠ 0) (hpos : 0 < threshold) :
    is_chunk_silent_max_abs chunk threshold =
      is_chunk_silent_max_abs
        (chunk.take (SAMPLE_WIDTH * (chunk.length / SAMPLE_WIDTH))) threshold := by
  have hw : SAMPLE_WIDTH = 2 := rfl
  rw [hw] at hodd ⊢
  have hne : chunk ≠ [] := by
    intro h
    rw [h] at hodd
    simp at hodd
  rcases Nat.eq_zero_or_pos (chunk.length / 2) with hz | hp
  · -- a single incomplete byte: both sides classify silent
    have hlen : chunk.length = 1 := by omega
    rw [hz, Nat.mul_zero, List.take_zero]
    cases chunk with
    | nil => simp at hlen
    | cons b rest =>
      cases rest with
      | cons b1 r =>
        simp at hlen
      | nil =>
        show (if ([b] : List Nat) = [] then true
          else decide (maxAbsAmplitude [b] < threshold)) = _
        rw [if_neg (by simp)]
        show decide ((0 : Nat) < threshold) = _
        simp [is_chunk_silent_max_abs, hpos]
  · -- at least one whole sample survives the truncation
    have htne : chunk.take (2 * (chunk.length / 2)) ≠ [] := by
      apply List.ne_nil_of_length_pos
      rw [List.length_take]
      omega
    unfold is_chunk_silent_max_abs
    rw [if_neg hne, if_neg htne, maxAbsAmplitude_take_whole]

/-- C9 witness at a concrete three-byte chunk with threshold 800. -/
theorem claim9_witness :
    [0, 0, 5].length % SAMPLE_WIDTH ≠ 0 ∧ 0 < 800 ∧
      is_chunk_silent_max_abs [0, 0, 5] 800 =
        is_chunk_silent_max_abs
          (([0, 0, 5]).take (SAMPLE_WIDTH * ([0, 0, 5].length / SAMPLE_WIDTH))) 800 :=
  ⟨by decide, by decide, claim9_truncation [0, 0, 5] 800 (by decide) (by decide)⟩

/-! ### Gate pipeline lemmas -/

theorem processChunks_nil (s : GateState) : processChunks s [] = (s, []) := rfl

theorem processChunks_cons (s : GateState) (c : List Nat) (cs : List (List Nat)) :
    processChunks s (c :: cs) =
      ((processChunks (processChunk s c).1 cs).1,
        if (processChunk s c).2 then c :: (processChunks (processChunk s c).1 cs).2
        else (processChunks (processChunk s c).1 cs).2) := rfl

theorem processChunks_append (s : GateState) (cs ds : List (List Nat)) :
    processChunks s (cs ++ ds) =
      ((processChunks (processChunks s cs).1 ds).1,
        (processChunks s cs).2 ++ (processChunks (processChunks s cs).1 ds).2) := by
  induction cs generalizing s with
  | nil => simp [processChunks_nil]
  | cons c cs ih =>
    simp only [List.cons_append, processChunks_cons, ih]
    by_cases h : (processChunk s c).2 <;> simp [h]

theorem length_gateStatesAfter (s : GateState) (cs : List (List Nat)) :
    (gateStatesAfter s cs).length = cs.length := by
  induction cs generalizing s with
  | nil => rfl
  | cons c cs ih => simp [gateStatesAfter, ih]

theorem processChunks_snd_eq_filter (s : GateState) (cs : List (List Nat)) :
    (processChunks s cs).2 =
      ((cs.zip (gateStatesAfter s cs)).filter (fun p => p.2.relaying)).map
        Prod.fst := by
  induction cs generalizing s with
  | nil => rfl
  | cons c cs ih =>
    simp only [processChunks_cons, gateStatesAfter, List.zip_cons_cons,
      List.filter_cons]
    have hrel : (processChunk s c).2 = (processChunk s c).1.relaying := rfl
    by_cases h : (processChunk s c).1.relaying
    · simp [h, hrel, ih]
    · simp [h, hrel, ih]

theorem processChunks_snd_sublist (s : GateState) (cs : List (List Nat)) :
    List.Sublist (processChunks s cs).2 cs := by
  rw [processChunks_snd_eq_filter]
  have h1 : List.Sublist
      ((cs.zip (gateStatesAfter s cs)).filter (fun p => p.2.relaying))
      (cs.zip (gateStatesAfter s cs)) := List.filter_sublist _
  have h2 := h1.map Prod.fst
  rw [List.map_fst_zip] at h2
  · exact h2
  · rw [length_gateStatesAfter]

theorem paused_chunk_silent (s : GateState) (cs : List (List Nat)) :
    ∀ p ∈ cs.zip (gateStatesAfter s cs), p.2.relaying = false →
      is_chunk_silent_max_abs p.1 SILENCE_THRESHOLD = true := by
  induction cs generalizing s with
  | nil =>
    intro p hp
    simp [gateStatesAfter] at hp
  | cons c cs ih =>
    intro p hp hrel
    simp only [gateStatesAfter, List.zip_cons_cons, List.mem_cons] at hp
    rcases hp with rfl | hp
    · simp only at hrel ⊢
      cases hsil : is_chunk_silent_max_abs c SILENCE_THRESHOLD with
      | true => rfl
      | false =>
        exfalso
        have ht : (processChunk s c).1.relaying = true := by
          simp [processChunk, stepGate, hsil]
        rw [hrel] at ht
        exact Bool.false_ne_true ht
    · exact ih _ p hp hrel

/-! ### Concrete chunk evaluation -/

theorem length_repChunk (k b0 b1 : Nat) : (repChunk k b0 b1).length = 2 * k := by
  induction k with
  | zero => rfl
  | succ n ih =>
    simp only [repChunk, List.length_cons, ih]
    ring

theorem repChunk_ne_nil (k b0 b1 : Nat) (hk : 0 < k) : repChunk k b0 b1 ≠ [] := by
  cases k with
  | zero => omega
  | succ n => simp [repChunk]

theorem maxAbsAmplitude_repChunk (k b0 b1 : Nat) (hk : 0 < k) :
    maxAbsAmplitude (repChunk k b0 b1) = (decodeSample b0 b1).natAbs := by
  induction k with
  | zero => omega
  | succ n ih =>
    cases Nat.eq_zero_or_pos n with
    | inl h =>
      subst h
      simp [repChunk, maxAbsAmplitude]
    | inr h =>
      simp [repChunk, maxAbsAmplitude, ih h]

theorem silent_chunkAmp50 :
    is_chunk_silent_max_abs chunkAmp50 SILENCE_THRESHOLD = true := by
  unfold chunkAmp50 is_chunk_silent_max_abs
  rw [if_neg (repChunk_ne_nil 8000 50 0 (by norm_num)),
    maxAbsAmplitude_repChunk 8000 50 0 (by norm_num)]
  decide

theorem duration_chunkAmp50 : chunkDuration chunkAmp50 = 1 / 2 := by
  unfold chunkAmp50 chunkDuration
  rw [length_repChunk]
  norm_num [BYTES_PER_SECOND, SAMPLE_RATE, BYTES_PER_SAMPLE, CHANNELS,
    SAMPLE_WIDTH]

theorem silent_silentOneSecond :
    is_chunk_silent_max_abs silentOneSecond SILENCE_THRESHOLD = true := by
  unfold silentOneSecond is_chunk_silent_max_abs
  rw [if_neg (repChunk_ne_nil 16000 0 0 (by norm_num)),
    maxAbsAmplitude_repChunk 16000 0 0 (by norm_num)]
  decide

theorem duration_silentOneSecond : chunkDuration silentOneSecond = 1 := by
  unfold silentOneSecond chunkDuration
  rw [length_repChunk]
  norm_num [BYTES_PER_SECOND, SAMPLE_RATE, BYTES_PER_SAMPLE, CHANNELS,
    SAMPLE_WIDTH]

theorem not_silent_chunkAmp2000 :
    is_chunk_silent_max_abs chunkAmp2000 SILENCE_THRESHOLD = false := by
  decide

theorem stepAmp50_relaying :
    processChunk initGate chunkAmp50 = (⟨true, 1 / 2⟩, true) := by
  unfold processChunk initGate
  rw [silent_chunkAmp50, duration_chunkAmp50]
  unfold stepGate
  norm_num [MAX_SILENCE_SECONDS]

theorem stepAmp50_toPause :
    processChunk ⟨true, 1 / 2⟩ chunkAmp50 = (⟨false, 1⟩, false) := by
  unfold processChunk
  rw [silent_chunkAmp50, duration_chunkAmp50]
  unfold stepGate
  norm_num [MAX_SILENCE_SECONDS]

theorem stepAmp50_paused :
    processChunk ⟨false, 1⟩ chunkAmp50 = (⟨false, 3 / 2⟩, false) := by
  unfold processChunk
  rw [silent_chunkAmp50, duration_chunkAmp50]
  unfold stepGate
  norm_num [MAX_SILENCE_SECONDS]

theorem stepAmp2000_resume :
    processChunk ⟨false, 3 / 2⟩ chunkAmp2000 = (⟨true, 0⟩, true) := by
  unfold processChunk
  rw [not_silent_chunkAmp2000]
  unfold stepGate
  norm_num

theorem stepSilentOneSecond :
    processChunk initGate silentOneSecond = (⟨false, 1⟩, false) := by
  unfold processChunk initGate
  rw [silent_silentOneSecond, duration_silentOneSecond]
  unfold stepGate
  norm_num [MAX_SILENCE_SECONDS]

/-! ### Claim C1 -/

/-- C1 counterexample: in the threshold-800, max-silence-1.0 s scenario
with three 0.5 s chunks of amplitude 50 followed by an amplitude-2000
chunk, the relay decisions are not the claimed
relay, relay, withhold, relay: the accumulator reaches 1.0 already at
chunk 2, which is therefore withheld. -/
theorem claim1_counterexample :
    relayFlags initGate [chunkAmp50, chunkAmp50, chunkAmp50, chunkAmp2000] ≠
      [true, true, false, true] := by
  simp only [relayFlags, gateStatesAfter, stepAmp50_relaying,
    stepAmp50_toPause, stepAmp50_paused, stepAmp2000_resume]
  decide

/-- C1 amended: in the same scenario chunk 1 is relayed, chunk 2 is
withheld (its 0.5 s brings the accumulator to 1.0 ≥ 1.0, so the gate
transitions to PAUSED at chunk 2), chunk 3 is withheld, and the
amplitude-2000 chunk is relayed with the accumulator reset to 0. -/
theorem claim1_scenario :
    relayFlags initGate [chunkAmp50, chunkAmp50, chunkAmp50, chunkAmp2000] =
      [true, false, false, true]
    ∧ (processChunks initGate [chunkAmp50, chunkAmp50]).1 = ⟨false, 1⟩
    ∧ (processChunks initGate
        [chunkAmp50, chunkAmp50, chunkAmp50, chunkAmp2000]) =
      (⟨true, 0⟩, [chunkAmp50, chunkAmp2000]) := by
  refine ⟨?_, ?_, ?_⟩
  · simp only [relayFlags, gateStatesAfter, stepAmp50_relaying,
      stepAmp50_toPause, stepAmp50_paused, stepAmp2000_resume]
    rfl
  · simp only [processChunks_cons, processChunks_nil, stepAmp50_relaying,
      stepAmp50_toPause]
  · simp only [processChunks_cons, processChunks_nil, stepAmp50_relaying,
      stepAmp50_toPause, stepAmp50_paused, stepAmp2000_resume]
    rfl

/-! ### Claim C2 -/

/-- C2 counterexample: a first chunk consisting of one second of silence
(32000 all-zero bytes) is withheld — nothing is relayed — because its
own duration already drives the accumulator to the 1.0 s limit before
the post-update relay decision. -/
theorem claim2_counterexample :
    (processChunks initGate [silentOneSecond]).2 = [] := by
  simp [processChunks_cons, processChunks_nil, stepSilentOneSecond]

/-- C2 amended: the first chunk after session creation is relayed
whenever it is classified not-silent or its duration is below
MAX_SILENCE_SECONDS; only a first chunk carrying at least the full
silence budget in one message is withheld. -/
theorem claim2_first_chunk (c : List Nat)
    (h : is_chunk_silent_max_abs c SILENCE_THRESHOLD = false ∨
      chunkDuration c < MAX_SILENCE_SECONDS) :
    (processChunks initGate [c]).2 = [c] := by
  have hrel : (processChunk initGate c).2 = true := by
    unfold processChunk initGate stepGate
    cases hsil : is_chunk_silent_max_abs c SILENCE_THRESHOLD with
    | false => simp
    | true =>
      rcases h with h | h
      · rw [hsil] at h
        exact absurd h (by simp)
      · have hlt : ¬ (MAX_SILENCE_SECONDS ≤ chunkDuration c) := not_le.mpr h
        simp [hlt]
  simp [processChunks_cons, processChunks_nil, hrel]

/-- C2 witness at a concrete one-sample silent chunk. -/
theorem claim2_witness :
    (is_chunk_silent_max_abs [0, 0] SILENCE_THRESHOLD = false ∨
      chunkDuration [0, 0] < MAX_SILENCE_SECONDS)
    ∧ (processChunks initGate [[0, 0]]).2 = [[0, 0]] :=
  ⟨Or.inr (by norm_num [chunkDuration, MAX_SILENCE_SECONDS, BYTES_PER_SECOND,
      SAMPLE_RATE, BYTES_PER_SAMPLE, CHANNELS, SAMPLE_WIDTH]),
    claim2_first_chunk [0, 0] (Or.inr (by norm_num [chunkDuration,
      MAX_SILENCE_SECONDS, BYTES_PER_SECOND, SAMPLE_RATE, BYTES_PER_SAMPLE,
      CHANNELS, SAMPLE_WIDTH]))⟩

/-! ### Claim C3 -/

/-- C3: for every inbound chunk sequence the relayed sequence, in send
order, is obtained from the received sequence by keeping exactly the
chunks whose post-update gate state is RELAYING — hence it is a
subsequence of the input (no reorder, no duplication, no alteration) —
and every withheld chunk is classified silent. -/
theorem claim3_relay_subsequence (cs : List (List Nat)) :
    ((processChunks initGate cs).2 =
      ((cs.zip (gateStatesAfter initGate cs)).filter
        (fun p => p.2.relaying)).map Prod.fst)
    ∧ List.Sublist (processChunks initGate cs).2 cs
    ∧ (∀ p ∈ cs.zip (gateStatesAfter initGate cs), p.2.relaying = false →
        is_chunk_silent_max_abs p.1 SILENCE_THRESHOLD = true) :=
  ⟨processChunks_snd_eq_filter _ _, processChunks_snd_sublist _ _,
    paused_chunk_silent _ _⟩

/-- C3 witness: the one-second silent chunk is withheld (its post-update
state is PAUSED) and the theorem forces it to be classified silent. -/
theorem claim3_witness :
    is_chunk_silent_max_abs silentOneSecond SILENCE_THRESHOLD = true :=
  (claim3_relay_subsequence [silentOneSecond]).2.2
    (silentOneSecond, ⟨false, 1⟩)
    (by simp [gateStatesAfter, stepSilentOneSecond]) rfl

/-! ### Accumulator characterization -/

theorem durSum_nil : durSum [] = 0 := rfl

theorem durSum_cons (c : List Nat) (cs : List (List Nat)) :
    durSum (c :: cs) = chunkDuration c + durSum cs := by
  simp [durSum]

theorem durSum_append (cs ds : List (List Nat)) :
    durSum (cs ++ ds) = durSum cs + durSum ds := by
  simp [durSum]

theorem durSum_reverse (cs : List (List Nat)) : durSum cs.reverse = durSum cs := by
  simp [durSum, List.map_reverse, List.sum_reverse]

theorem chunkDuration_nonneg (c : List Nat) : 0 ≤ chunkDuration c := by
  unfold chunkDuration
  apply div_nonneg (Nat.cast_nonneg _) (Nat.cast_nonneg _)

theorem stepGate_silent_acc (s : GateState) (d : ℚ) :
    (stepGate s true d).acc = s.acc + d := by
  unfold stepGate
  simp only [if_true]
  split <;> rfl

theorem stepGate_not_silent (s : GateState) (d : ℚ) :
    stepGate s false d = ⟨true, 0⟩ := rfl

theorem acc_after_processChunks (cs : List (List Nat)) : ∀ s : GateState,
    (processChunks s cs).1.acc =
      if cs.all (fun c => is_chunk_silent_max_abs c SILENCE_THRESHOLD)
      then s.acc + durSum cs
      else durSum (trailingSilentChunks cs) := by
  induction cs using List.reverseRecOn with
  | nil =>
    intro s
    simp [processChunks_nil, durSum]
  | append_singleton ds c ih =>
    intro s
    rw [processChunks_append]
    simp only [processChunks_cons, processChunks_nil, processChunk]
    cases hsil : is_chunk_silent_max_abs c SILENCE_THRESHOLD with
    | false =>
      have htrail : trailingSilentChunks (ds ++ [c]) = [] := by
        unfold trailingSilentChunks
        rw [List.reverse_append]
        simp [List.takeWhile_cons, hsil]
      have hall : (ds ++ [c]).all
          (fun c => is_chunk_silent_max_abs c SILENCE_THRESHOLD) = false := by
        simp [List.all_append, hsil]
      rw [stepGate_not_silent, htrail, hall]
      simp [durSum_nil]
    | true =>
      have htrail : trailingSilentChunks (ds ++ [c]) =
          c :: trailingSilentChunks ds := by
        unfold trailingSilentChunks
        rw [List.reverse_append]
        simp [List.takeWhile_cons, hsil]
      have hall : (ds ++ [c]).all
          (fun c => is_chunk_silent_max_abs c SILENCE_THRESHOLD) =
          ds.all (fun c => is_chunk_silent_max_abs c SILENCE_THRESHOLD) := by
        simp [List.all_append, hsil]
      rw [stepGate_silent_acc, ih s, htrail, hall]
      cases hds : ds.all (fun c => is_chunk_silent_max_abs c SILENCE_THRESHOLD)
        with
      | true =>
        simp only [if_true, durSum_append, durSum_cons, durSum_nil]
        ring
      | false =>
        simp only [Bool.false_eq_true, if_false, durSum_cons]
        ring

/-! ### Claim C5 -/

/-- C5: after any chunk sequence the accumulator equals the summed
durations of the maximal trailing run of silent chunks; it is exactly 0
right after a not-silent chunk; and appending one more silent chunk
never decreases it. -/
theorem claim5_accumulator (cs : List (List Nat)) :
    ((processChunks initGate cs).1.acc = durSum (trailingSilentChunks cs))
    ∧ (∀ c, is_chunk_silent_max_abs c SILENCE_THRESHOLD = false →
        (processChunks initGate (cs ++ [c])).1.acc = 0)
    ∧ (∀ c, is_chunk_silent_max_abs c SILENCE_THRESHOLD = true →
        (processChunks initGate cs).1.acc ≤
          (processChunks initGate (cs ++ [c])).1.acc) := by
  refine ⟨?_, ?_, ?_⟩
  · rw [acc_after_processChunks]
    cases hall : cs.all (fun c => is_chunk_silent_max_abs c SILENCE_THRESHOLD)
      with
    | false => simp
    | true =>
      have : trailingSilentChunks cs = cs.reverse := by
        unfold trailingSilentChunks
        apply List.takeWhile_eq_self_iff.mpr
        intro c hc
        exact (List.all_eq_true.mp hall) c (List.mem_reverse.mp hc)
      rw [this, durSum_reverse]
      show initGate.acc + durSum cs = durSum cs
      show 0 + durSum cs = durSum cs
      ring
  · intro c hsil
    rw [processChunks_append]
    simp only [processChunks_cons, processChunks_nil, processChunk]
    rw [hsil, stepGate_not_silent]
  · intro c hsil
    rw [processChunks_append]
    simp only [processChunks_cons, processChunks_nil, processChunk]
    rw [hsil, stepGate_silent_acc]
    exact le_add_of_nonneg_right (chunkDuration_nonneg c)

/-- C5 witness: a not-silent chunk zeroes the accumulator, and a silent
chunk does not decrease it, at concrete inputs. -/
theorem claim5_witness :
    is_chunk_silent_max_abs chunkAmp2000 SILENCE_THRESHOLD = false ∧
      (processChunks initGate ([] ++ [chunkAmp2000])).1.acc = 0 ∧
      (processChunks initGate []).1.acc ≤
        (processChunks initGate ([] ++ [[0, 0]])).1.acc :=
  ⟨not_silent_chunkAmp2000,
    (claim5_accumulator []).2.1 chunkAmp2000 not_silent_chunkAmp2000,
    (claim5_accumulator []).2.2 [0, 0] (by decide)⟩

/-! ### Claim C10 -/

theorem stepGate_preserves_bound (s : GateState) (b : Bool) (d : ℚ) :
    (stepGate s b d).relaying = true →
      (stepGate s b d).acc < MAX_SILENCE_SECONDS := by
  unfold stepGate
  cases b with
  | false =>
    intro
    show (0 : ℚ) < MAX_SILENCE_SECONDS
    norm_num [MAX_SILENCE_SECONDS]
  | true =>
    by_cases h : MAX_SILENCE_SECONDS ≤ s.acc + d
    · simp [h]
    · simp only [if_true, if_neg h]
      intro
      exact not_le.mp h

theorem processChunks_relaying_bound (cs : List (List Nat)) : ∀ s : GateState,
    (s.relaying = true → s.acc < MAX_SILENCE_SECONDS) →
    ((processChunks s cs).1.relaying = true →
      (processChunks s cs).1.acc < MAX_SILENCE_SECONDS) := by
  induction cs with
  | nil => exact fun s hs => hs
  | cons c cs ih =>
    intro s hs
    rw [processChunks_cons]
    exact ih _ (stepGate_preserves_bound s _ _)

/-- C10: whenever the gate is RELAYING after any chunk sequence from the
initial state, the accumulator is strictly below MAX_SILENCE_SECONDS;
and the silent chunk that first lifts the accumulator to the limit is
itself withheld. -/
theorem claim10_relaying_bound (cs : List (List Nat)) :
    ((processChunks initGate cs).1.relaying = true →
      (processChunks initGate cs).1.acc < MAX_SILENCE_SECONDS)
    ∧ (∀ c, is_chunk_silent_max_abs c SILENCE_THRESHOLD = true →
        MAX_SILENCE_SECONDS ≤
          (processChunks initGate cs).1.acc + chunkDuration c →
        (processChunk (processChunks initGate cs).1 c).2 = false) := by
  constructor
  · exact processChunks_relaying_bound cs initGate
      (fun _ => by norm_num [initGate, MAX_SILENCE_SECONDS])
  · intro c hsil hge
    unfold processChunk
    rw [hsil]
    unfold stepGate
    simp [hge]

/-- C10 witness: the one-second silent chunk meets the limit at once and
is withheld. -/
theorem claim10_witness :
    is_chunk_silent_max_abs silentOneSecond SILENCE_THRESHOLD = true ∧
      MAX_SILENCE_SECONDS ≤
        (processChunks initGate []).1.acc + chunkDuration silentOneSecond ∧
      (processChunk (processChunks initGate []).1 silentOneSecond).2 = false :=
  ⟨silent_silentOneSecond,
    by
      simp only [processChunks_nil, duration_silentOneSecond]
      norm_num [initGate, MAX_SILENCE_SECONDS],
    (claim10_relaying_bound []).2 silentOneSecond silent_silentOneSecond
      (by
        simp only [processChunks_nil, duration_silentOneSecond]
        norm_num [initGate, MAX_SILENCE_SECONDS])⟩

/-! ### Handler buffering and teardown -/

theorem foldl_handleMessage_pcm (msgs : List WsMessage) : ∀ st : SessionState,
    (msgs.foldl handleMessage st).pcmChunks =
      st.pcmChunks ++ binaryPayloads msgs := by
  induction msgs with
  | nil =>
    intro st
    simp [binaryPayloads]
  | cons m msgs ih =>
    intro st
    cases m with
    | binary p =>
      simp only [List.foldl_cons, ih, handleMessage, binaryPayloads,
        List.filterMap_cons]
      simp
    | text t =>
      simp only [List.foldl_cons, ih, handleMessage, binaryPayloads,
        List.filterMap_cons]

theorem runHandler_pcm (msgs : List WsMessage) :
    (runHandler msgs).pcmChunks = binaryPayloads msgs := by
  rw [runHandler, foldl_handleMessage_pcm]
  simp [initSession]

theorem teardownWrite_eq (msgs : List WsMessage) :
    teardownWrite (runHandler msgs) =
      if binaryPayloads msgs = [] then none
      else some ⟨CHANNELS, SAMPLE_WIDTH, SAMPLE_RATE,
        (binaryPayloads msgs).flatten⟩ := by
  unfold teardownWrite
  rw [runHandler_pcm]
  by_cases h : binaryPayloads msgs = [] <;>
    simp [h, List.isEmpty_iff]

/-! ### Claim C6 -/

/-- C6: every binary frame is buffered unconditionally in receipt order
regardless of relaying, and a teardown with a non-empty buffer writes a
file stamped 1 channel, 2-byte samples, 16000 Hz whose payload is the
concatenation of all received binary frames. -/
theorem claim6_persistence (msgs : List WsMessage) :
    ((runHandler msgs).pcmChunks = binaryPayloads msgs)
    ∧ (binaryPayloads msgs ≠ [] →
        teardownWrite (runHandler msgs) =
          some ⟨1, 2, 16000, (binaryPayloads msgs).flatten⟩) := by
  refine ⟨runHandler_pcm msgs, fun h => ?_⟩
  rw [teardownWrite_eq, if_neg h]
  rfl

/-- C6 witness at a one-binary-frame session. -/
theorem claim6_witness :
    binaryPayloads [WsMessage.binary [0, 0]] ≠ [] ∧
      teardownWrite (runHandler [WsMessage.binary [0, 0]]) =
        some ⟨1, 2, 16000, (binaryPayloads [WsMessage.binary [0, 0]]).flatten⟩ :=
  ⟨by decide, (claim6_persistence [WsMessage.binary [0, 0]]).2 (by decide)⟩

/-! ### Claim C7 -/

/-- C7: with an empty buffer the teardown performs no write at all; and
when the write is attempted and fails, the failure is captured as a
logged outcome — the teardown still yields a result (the session
terminates cleanly) and the error never escapes. -/
theorem claim7_teardown (msgs : List WsMessage) (e : String) :
    (binaryPayloads msgs = [] →
      teardownWrite (runHandler msgs) = none ∧
      ∀ f : WavFile → Except String Unit, teardown (runHandler msgs) f = none)
    ∧ teardown (runHandler msgs) (fun _ => Except.error e) =
        (if binaryPayloads msgs = [] then none else some (Except.error e)) := by
  constructor
  · intro h
    have hw : teardownWrite (runHandler msgs) = none := by
      rw [teardownWrite_eq, if_pos h]
    exact ⟨hw, fun f => by unfold teardown; rw [hw]⟩
  · by_cases h : binaryPayloads msgs = []
    · rw [if_pos h]
      unfold teardown
      rw [teardownWrite_eq, if_pos h]
    · rw [if_neg h]
      unfold teardown
      rw [teardownWrite_eq, if_neg h]

/-- C7 witness: a session with no binary frames writes nothing. -/
theorem claim7_witness :
    binaryPayloads ([] : List WsMessage) = [] ∧
      teardownWrite (runHandler []) = none ∧
      teardown (runHandler [])
        (fun _ => Except.error "disk full") = none :=
  ⟨rfl, ((claim7_teardown [] "disk full").1 rfl).1,
    ((claim7_teardown [] "disk full").1 rfl).2 _⟩

/-! ### Filename derivation -/

theorem padRev_inj (w : Nat) : ∀ n m : Nat, n < 10 ^ w → m < 10 ^ w →
    padRev w n = padRev w m → n = m := by
  induction w with
  | zero =>
    intro n m hn hm _
    simp only [pow_zero, Nat.lt_one_iff] at hn hm
    rw [hn, hm]
  | succ w ih =>
    intro n m hn hm h
    simp only [padRev, List.cons.injEq] at h
    have hn' : n / 10 < 10 ^ w := Nat.div_lt_of_lt_mul (by rw [← pow_succ']; exact hn)
    have hm' : m / 10 < 10 ^ w := Nat.div_lt_of_lt_mul (by rw [← pow_succ']; exact hm)
    have h2 : n / 10 = m / 10 := ih _ _ hn' hm' h.2
    have h1 : n % 10 = m % 10 := h.1
    omega

theorem padRev_lt_ten (w : Nat) : ∀ (n : Nat), ∀ d ∈ padRev w n, d < 10 := by
  induction w with
  | zero =>
    intro n d hd
    simp [padRev] at hd
  | succ w ih =>
    intro n d hd
    simp only [padRev, List.mem_cons] at hd
    rcases hd with rfl | hd
    · exact Nat.mod_lt _ (by norm_num)
    · exact ih _ d hd

theorem digitChar_inj :
    ∀ a < 10, ∀ b < 10, Nat.digitChar a = Nat.digitChar b → a = b := by
  decide

theorem map_digitChar_inj : ∀ l1 l2 : List Nat, (∀ x ∈ l1, x < 10) →
    (∀ x ∈ l2, x < 10) → l1.map Nat.digitChar = l2.map Nat.digitChar →
    l1 = l2 := by
  intro l1
  induction l1 with
  | nil =>
    intro l2 _ _ h
    cases l2 with
    | nil => rfl
    | cons b l2 => simp at h
  | cons a l1 ih =>
    intro l2 h1 h2 h
    cases l2 with
    | nil => simp at h
    | cons b l2 =>
      simp only [List.map_cons, List.cons.injEq] at h
      have hab := digitChar_inj a (h1 a (by simp)) b (h2 b (by simp)) h.1
      rw [hab,
        ih l2 (fun x hx => h1 x (by simp [hx])) (fun x hx => h2 x (by simp [hx]))
          h.2]

theorem padDigits_inj (w n m : Nat) (hn : n < 10 ^ w) (hm : m < 10 ^ w)
    (h : padDigits w n = padDigits w m) : n = m := by
  unfold padDigits at h
  have hrev := map_digitChar_inj _ _
    (fun x hx => padRev_lt_ten w n x (List.mem_reverse.mp hx))
    (fun x hx => padRev_lt_ten w m x (List.mem_reverse.mp hx)) h
  exact padRev_inj w n m hn hm (List.reverse_injective hrev)

/-! ### Claim C8 -/

/-- C8: two sessions from the same remote identity created at distinct
instants within the same second get distinct output filenames, because
the filename carries the microsecond field of the creation timestamp. -/
theorem claim8_filenames (addr : String) (t1 t2 : Timestamp)
    (h1 : t1.microsecond < 1000000) (h2 : t2.microsecond < 1000000)
    (hne : t1 ≠ t2)
    (hy : t1.year = t2.year) (hmo : t1.month = t2.month)
    (hd : t1.day = t2.day) (hh : t1.hour = t2.hour)
    (hmi : t1.minute = t2.minute) (hs : t1.second = t2.second) :
    outputFilename addr t1 ≠ outputFilename addr t2 := by
  intro h
  apply hne
  have hdata : (outputFilename addr t1).data = (outputFilename addr t2).data :=
    congrArg String.data h
  simp only [outputFilename] at hdata
  rw [List.append_assoc, List.append_assoc] at hdata
  have hsw := List.append_cancel_left hdata
  have hstrf := List.append_cancel_right hsw
  unfold strfTimestamp at hstrf
  rw [hy, hmo, hd, hh, hmi, hs] at hstrf
  have hpad := List.append_cancel_left hstrf
  have hmicro : t1.microsecond = t2.microsecond :=
    padDigits_inj 6 _ _ (by simpa using h1) (by simpa using h2) hpad
  cases t1
  cases t2
  simp only [Timestamp.mk.injEq]
  simp only at hy hmo hd hh hmi hs hmicro
  exact ⟨hy, hmo, hd, hh, hmi, hs, hmicro⟩

/-- C8 witness: same address, same second, different microseconds. -/
theorem claim8_witness :
    outputFilename "client" ⟨2026, 10, 12, 3, 4, 5, 111111⟩ ≠
      outputFilename "client" ⟨2026, 10, 12, 3, 4, 5, 222222⟩ :=
  claim8_filenames "client" _ _ (by norm_num) (by norm_num) (by decide)
    rfl rfl rfl rfl rfl rfl

end AudioHandler
